import Mathlib

/-!
Verification development for the Interview-Questions-Generator repository
(single source file `app.py`).

The Python string operations used by the source (`str.strip`, `str.rstrip`,
`str.split`, substring membership via `in`, `str.replace`, `str.find` /
`str.rfind`) are embedded as executable functions on `List Char`, with
`String` wrappers at the boundary.  The structured-data parser
(`json.loads`), URL syntax check (`urllib.parse.urlparse`) and the network
reachability probe (`requests.head`) are external collaborators, modelled
as executable Lean functions / function parameters as documented at their
definitions.
-/

namespace InterviewGen

/-- Python whitespace characters as used by `str.strip` / `str.rstrip`
(the ASCII fragment; the model does not cover Unicode whitespace). -/
def pyWs (c : Char) : Bool :=
  c == ' ' || c == '\t' || c == '\n' || c == '\r' || c == '\x0b' || c == '\x0c'

/-- Model of Python `str.strip()` on character lists. -/
def pyStrip (l : List Char) : List Char :=
  ((l.dropWhile pyWs).reverse.dropWhile pyWs).reverse

/-- Model of Python `str.rstrip()` on character lists. -/
def pyRstrip (l : List Char) : List Char :=
  (l.reverse.dropWhile pyWs).reverse

/-- Model of Python `str.strip()`. -/
def pyStripS (s : String) : String := String.mk (pyStrip s.data)

/-- Model of Python `str.rstrip()`. -/
def pyRstripS (s : String) : String := String.mk (pyRstrip s.data)

/-- Index of the leftmost occurrence of `sep` as a contiguous sublist of `l`
(the search Python `str.find` / `str.split` perform). -/
def findSub (sep : List Char) : List Char → Option Nat
  | [] => if sep.isPrefixOf [] then some 0 else none
  | c :: t =>
    if sep.isPrefixOf (c :: t) then some 0
    else (findSub sep t).map (· + 1)

/-- Model of Python `sep in s` (substring membership). -/
def containsSub (sep l : List Char) : Bool := (findSub sep l).isSome

/-- Fuel-driven worker for `splitOnPy`; the fuel always dominates the input
length at the call sites, so the fuel-exhaustion branch is never taken. -/
def splitOnAux (sep : List Char) : Nat → List Char → List (List Char)
  | 0, l => [l]
  | fuel + 1, l =>
    match findSub sep l with
    | none => [l]
    | some i => l.take i :: splitOnAux sep fuel (l.drop (i + sep.length))

/-- Model of Python `s.split(sep)` for a non-empty separator: the pieces
between consecutive non-overlapping leftmost occurrences of `sep`. -/
def splitOnPy (sep l : List Char) : List (List Char) :=
  splitOnAux sep (l.length + 1) l

/-- Model of Python `sep in s` on `String`. -/
def containsSubS (sep s : String) : Bool := containsSub sep.data s.data

/-- Model of Python `s.split(sep)` on `String`. -/
def splitOnPyS (sep s : String) : List String :=
  (splitOnPy sep.data s.data).map String.mk

example : splitOnPyS "```" "a```b``` c ```d" = ["a", "b", " c ", "d"] := by decide
example : splitOnPyS "```" "``````" = ["", "", ""] := by decide
example : pyStripS "  a b\n " = "a b" := by decide
example : containsSubS "Source:" "x Source: y" = true := by decide

/-!
Structured payloads.  `json.loads` is a standard-library collaborator, not
code of the repository; it is modelled from the spec's "direct
structured-data parse" as a strict recursive-descent parser over the JSON
fragment relevant to the generator's payloads: `null`, booleans, integer
numbers, strings with the single-character escapes, arrays and objects.
As in Python, the whole input (up to surrounding whitespace) must be
consumed, and unescaped control characters inside strings are rejected.
(Floating-point literals and `\u` escapes are outside the modelled
fragment.)
-/

/-- A structured-data value, as produced by the modelled parse. -/
inductive Json where
  | null
  | bool (b : Bool)
  | num (n : Int)
  | str (s : String)
  | arr (elems : List Json)
  | obj (fields : List (String × Json))

/-- JSON inter-token whitespace (Python `json` accepts space, tab, LF, CR). -/
def jsonWs (c : Char) : Bool := c == ' ' || c == '\t' || c == '\n' || c == '\r'

/-- Skip inter-token whitespace. -/
def skipWs (l : List Char) : List Char := l.dropWhile jsonWs

/-- Single-character string escapes of the modelled JSON fragment
(backspace, form feed, newline, carriage return and tab are given by
their code points). -/
def escChar : Char → Option Char
  | '"' => some '"'
  | '\\' => some '\\'
  | '/' => some '/'
  | 'b' => some (Char.ofNat 8)
  | 't' => some (Char.ofNat 9)
  | 'n' => some (Char.ofNat 10)
  | 'f' => some (Char.ofNat 12)
  | 'r' => some (Char.ofNat 13)
  | _ => none

/-- Parse the body of a quoted string (opening quote already consumed);
returns the decoded characters and the rest after the closing quote. -/
def parseStrAux : List Char → Option (List Char × List Char)
  | [] => none
  | '"' :: t => some ([], t)
  | '\\' :: e :: t =>
    match escChar e, parseStrAux t with
    | some c, some (cs, r) => some (c :: cs, r)
    | _, _ => none
  | c :: t =>
    if c.toNat < 32 then none
    else
      match parseStrAux t with
      | some (cs, r) => some (c :: cs, r)
      | none => none

/-- Parse an integer numeric literal (the numeric fragment modelled). -/
def parseNum (l : List Char) : Option (Json × List Char) :=
  let (neg, l') := match l with
    | '-' :: t => (true, t)
    | _ => (false, l)
  let ds := l'.takeWhile Char.isDigit
  if ds.isEmpty then none
  else
    let n : Nat := ds.foldl (fun a c => a * 10 + (c.toNat - 48)) 0
    some (Json.num (if neg then -(n : Int) else (n : Int)), l'.drop ds.length)

mutual

/-- Parse one JSON value; fuel bounds the recursion depth and is chosen
large enough at the top level to never run out. -/
def parseVal : Nat → List Char → Option (Json × List Char)
  | 0, _ => none
  | fuel + 1, l =>
    match skipWs l with
    | [] => none
    | 'n' :: t => if ['u', 'l', 'l'].isPrefixOf t then some (.null, t.drop 3) else none
    | 't' :: t => if ['r', 'u', 'e'].isPrefixOf t then some (.bool true, t.drop 3) else none
    | 'f' :: t => if ['a', 'l', 's', 'e'].isPrefixOf t then some (.bool false, t.drop 4) else none
    | '"' :: t =>
      match parseStrAux t with
      | some (cs, r) => some (.str (String.mk cs), r)
      | none => none
    | '[' :: t =>
      (match skipWs t with
       | ']' :: r => some (.arr [], r)
       | _ =>
         match parseElems fuel t with
         | some (xs, r) => some (.arr xs, r)
         | none => none)
    | '\x7b' :: t =>
      (match skipWs t with
       | '\x7d' :: r => some (.obj [], r)
       | _ =>
         match parseFields fuel t with
         | some (fs, r) => some (.obj fs, r)
         | none => none)
    | c :: t => if c == '-' || c.isDigit then parseNum (c :: t) else none

/-- Parse the comma-separated elements of a non-empty array, including the
closing bracket. -/
def parseElems : Nat → List Char → Option (List Json × List Char)
  | 0, _ => none
  | fuel + 1, l =>
    match parseVal fuel l with
    | some (v, r) =>
      (match skipWs r with
       | ',' :: r2 =>
         (match parseElems fuel r2 with
          | some (vs, r3) => some (v :: vs, r3)
          | none => none)
       | ']' :: r2 => some ([v], r2)
       | _ => none)
    | none => none

/-- Parse the comma-separated members of a non-empty object, including the
closing brace. -/
def parseFields : Nat → List Char → Option (List (String × Json) × List Char)
  | 0, _ => none
  | fuel + 1, l =>
    match skipWs l with
    | '"' :: t =>
      (match parseStrAux t with
       | some (k, r) =>
         (match skipWs r with
          | ':' :: r2 =>
            (match parseVal fuel r2 with
             | some (v, r3) =>
               (match skipWs r3 with
                | ',' :: r4 =>
                  (match parseFields fuel r4 with
                   | some (fs, r5) => some ((String.mk k, v) :: fs, r5)
                   | none => none)
                | '\x7d' :: r4 => some ([(String.mk k, v)], r4)
                | _ => none)
             | none => none)
          | _ => none)
       | none => none)
    | _ => none

end

/-- Model of the collaborator parse `json.loads`: parse one value and
require that only whitespace remains. -/
def jsonParse (s : String) : Option Json :=
  match parseVal (2 * s.length + 4) s.data with
  | some (v, rest) => if (skipWs rest).isEmpty then some v else none
  | none => none

example :
    jsonParse "\x7b\"questions\": []\x7d" = some (Json.obj [("questions", Json.arr [])]) := rfl

example :
    jsonParse "[\x7b\"a\": 1\x7d]" = some (Json.arr [Json.obj [("a", Json.num 1)]]) := rfl

example : jsonParse "\x7b\"a\": \"b" = none := rfl

/-!
URL validation and the fallback reference search (`app.py` lines 45-51 and
72-96).  `urllib.parse.urlparse` is a standard-library collaborator; it is
modelled for the two fields `is_valid_url` reads: `scheme` (a leading
alpha-initial run of scheme characters before a colon) and `netloc` (the
authority after `//`, up to the first `/`, `?` or `#`).  The network
reachability check (`validate_url_access`, spec collaborator `probe`) is a
function parameter `probe : String → Bool`.
-/

/-- Characters allowed in a URL scheme (letters, digits, `+`, `-`, `.`). -/
def scheme_char (c : Char) : Bool := c.isAlphanum || c == '+' || c == '-' || c == '.'

/-- Split off the scheme as `urlparse` does: returns whether a scheme was
recognised and the remaining characters after the colon (or the whole
input when no scheme is present). -/
def urlAfterScheme (l : List Char) : Bool × List Char :=
  match l.findIdx? (fun c => c == ':') with
  | some i =>
    if decide (0 < i) && (l.take i).all scheme_char &&
        (match l.head? with
         | some c => c.isAlpha
         | none => false) then
      (true, l.drop (i + 1))
    else (false, l)
  | none => (false, l)

/-- The netloc of the part after the scheme: present only after `//`. -/
def netlocOf (rest : List Char) : List Char :=
  match rest with
  | '/' :: '/' :: t => t.takeWhile (fun c => !(c == '/' || c == '?' || c == '#'))
  | _ => []

/-- Model of `is_valid_url` (`app.py` lines 45-51): `urlparse` succeeds with
a non-empty `scheme` and a non-empty `netloc`. -/
def is_valid_url (s : String) : Bool :=
  match urlAfterScheme s.data with
  | (true, rest) => !(netlocOf rest).isEmpty
  | (false, _) => false

example : is_valid_url "https://example.com/doc" = true := by decide
example : is_valid_url "notaurl" = false := by decide
example : is_valid_url "http:/bad" = false := by decide
example : is_valid_url "" = false := by decide

/-- The fixed ordered list of documentation-site bases (`app.py` lines
74-81). -/
def search_bases : List String :=
  ["https://docs.python.org/3/",
   "https://developer.mozilla.org/en-US/docs/",
   "https://learn.microsoft.com/en-us/docs/",
   "https://www.geeksforgeeks.org/",
   "https://www.w3schools.com/",
   "https://www.tutorialspoint.com/"]

/-- A regex word character (`\w`), restricted to ASCII for the model. -/
def isWordChar (c : Char) : Bool := c.isAlphanum || c == '_'

/-- Fuel-driven worker for `wordRuns`; each step consumes at least one
character, so fuel equal to the input length suffices. -/
def wordRunsAux : Nat → List Char → List (List Char)
  | 0, _ => []
  | _, [] => []
  | fuel + 1, c :: t =>
    if isWordChar c then
      (c :: t.takeWhile isWordChar) :: wordRunsAux fuel (t.dropWhile isWordChar)
    else wordRunsAux fuel t

/-- Maximal runs of word characters: the matches of `\b\w+\b`
(`app.py` line 84). -/
def wordRuns (l : List Char) : List (List Char) := wordRunsAux l.length l

/-- Keyword extraction from the question text (`app.py` lines 84-85):
lowercase word runs longer than three characters. -/
def keywords (question : String) : List String :=
  ((wordRuns (question.data.map Char.toLower)).filter (fun w => 3 < w.length)).map String.mk

/-- Model of `search_alternative_url` (`app.py` lines 72-96): probe each
base joined with the first three keywords, hyphen-separated, returning the
first reachable candidate.  The `topic` parameter is accepted and unused,
as in the source. -/
def search_alternative_url (probe : String → Bool) (topic question : String) :
    Option String :=
  let path := String.intercalate "-" ((keywords question).take 3)
  search_bases.findSome? (fun base =>
    let u := base ++ path
    if probe u then some u else none)

example :
    search_alternative_url (fun s => s == "https://docs.python.org/3/explain-machine-learning")
      "T" "Explain machine learning" =
      some "https://docs.python.org/3/explain-machine-learning" := by decide

example : search_alternative_url (fun _ => false) "T" "Explain machine learning" = none := by
  decide

/-!
The Record data model and `InterviewGenerator.generate_interview`
(`app.py` lines 13-19 and 105-207).  The network call that produces the
raw text is the generation collaborator; its response (already a string)
is the `raw` parameter.  Everything from line 158 onwards is embedded:
the unconditional newline/carriage-return collapsing, the first-`{` /
last-`}` substring extraction, the single `json.loads` attempt, the
per-entry loop, and the `except` clause that turns any failure into the
single placeholder record.  Failure anywhere inside the `try` block is
modelled as `Option.none`.

The loop body is dynamically typed, and the model follows Python
exactly.  The record fields carry payload values of any type
(`QuestionDyn`): the dataclass performs no type checking.  The loop
raises only at these points: indexing a non-dict entry or a missing
`answer`/`question` key; `"Source:" in answer` when the reference is
falsy and the answer is not iterable (a number, boolean or null — a list
or dict answer is a non-raising membership test); `answer.split` when
that membership test succeeded on a list or dict; and `question.lower()`
inside `search_alternative_url`, reached only when the resolution
condition at line 184 holds and then only for a non-string question.
`q.get("reference", "")` never raises, and `is_valid_url` /
`validate_url_access` swallow their own errors (returning `False` on a
non-string argument), so a non-string reference flows into the record
(or is replaced by a reachable fallback).  Iterating `data["questions"]`
follows Python: a list yields its elements, a string yields its
one-character substrings, a dict yields its keys, and any other value
raises (`none`).

The text-typed view (`Question`, `processEntry`) restricts the loop body
to entries with a string `question` and `answer` and an absent-or-string
`reference` — the spec's Record data model; `processEntryDyn_of_str`
proves the restriction agrees with the full model on those entries.
-/

/-- The Record (`Question` dataclass, `app.py` lines 13-19). -/
structure Question where
  question : String
  answer : String
  difficulty : String
  topic : String
  reference : String
deriving DecidableEq

/-- Model of line 159: `content.replace('\n', ' ').replace('\r', '')`. -/
def collapseNL : List Char → List Char
  | [] => []
  | c :: t =>
    if c = '\n' then ' ' :: collapseNL t
    else if c = '\r' then collapseNL t
    else c :: collapseNL t

/-- String form of `collapseNL`. -/
def collapseNlS (s : String) : String := String.mk (collapseNL s.data)

/-- Index of the last occurrence of a character, Python `str.rfind`. -/
def rfindIdx (p : Char → Bool) (l : List Char) : Option Nat :=
  match l.reverse.findIdx? p with
  | some k => some (l.length - 1 - k)
  | none => none

/-- Model of lines 162-165: slice from the first `{` to the last `}`
inclusive, when both are present; otherwise leave the content unchanged. -/
def braceSlice (s : String) : String :=
  match s.data.findIdx? (fun c => c == '\x7b'), rfindIdx (fun c => c == '\x7d') s.data with
  | some i, some j => String.mk ((s.data.take (j + 1)).drop i)
  | _, _ => s

/-- Lines 158-165: the content actually handed to the structured parse —
stripped, newline/CR-collapsed, then brace-sliced, unconditionally. -/
def pipelineContent (raw : String) : String :=
  braceSlice (collapseNlS (pyStripS raw))

/-- Dictionary lookup: Python builds the dict with later duplicate keys
overwriting earlier ones, so the last binding wins. -/
def getKey (fs : List (String × Json)) (k : String) : Option Json :=
  (fs.reverse.find? (fun p => p.1 == k)).map (·.2)

/-- The entry list iterated by the `for` loop (line 170): `data` must
support `["questions"]` indexing (a dict), and the value must be iterable. -/
def entriesOfPayload : Json → Option (List Json)
  | .obj fs =>
    match getKey fs "questions" with
    | some (.arr xs) => some xs
    | some (.str s) => some (s.data.map (fun c => Json.str (String.mk [c])))
    | some (.obj gs) => some (gs.map (fun p => Json.str p.1))
    | some _ => none
    | none => none
  | _ => none

/-- Lines 158-170: parse the transformed content and obtain the entries. -/
def extractEntries (raw : String) : Option (List Json) :=
  (jsonParse (pipelineContent raw)).bind entriesOfPayload

/-- The marker split off the answer text (line 175). -/
def sourceMarker : String := "Source:"

/-- Lines 174-181: when the structured `reference` is empty and the answer
contains the marker, split the answer; the trailing part (after the last
marker) becomes the reference and the leading part (before the first
marker) becomes the answer — but only when the trailing part is a
syntactically valid URL.  Returns `(answer, reference)`. -/
def sourceSplit (answer reference : String) : String × String :=
  if reference == "" && containsSubS sourceMarker answer then
    let parts := splitOnPyS sourceMarker answer
    if 1 < parts.length then
      let potential := pyStripS (parts.getLastD "")
      if is_valid_url potential then (pyStripS (parts.headD ""), potential)
      else (answer, reference)
    else (answer, reference)
  else (answer, reference)

/-- The `q["answer"]` value (line 171) in the text-typed view: the
answer, when the entry is a dict whose `answer` field is a string. -/
def entryAnswer? (e : Json) : Option String :=
  match e with
  | .obj fs =>
    match getKey fs "answer" with
    | some (.str s) => some s
    | _ => none
  | _ => none

/-- The `q.get("reference", "")` value (line 172) in the text-typed view:
the reference when it is a string, `""` when absent. -/
def entryRef? (e : Json) : Option String :=
  match e with
  | .obj fs =>
    match getKey fs "reference" with
    | none => some ""
    | some (.str s) => some s
    | some _ => none
  | _ => none

/-- The `q["question"]` value (lines 185 and 189) in the text-typed view:
the question, when the entry is a dict whose `question` is a string. -/
def entryQuestion? (e : Json) : Option String :=
  match e with
  | .obj fs =>
    match getKey fs "question" with
    | some (.str s) => some s
    | _ => none
  | _ => none

/-- Lines 183-187: replace the candidate reference by the first reachable
fallback candidate when the candidate is empty, syntactically invalid or
unreachable; when no fallback is found the candidate — valid or not — is
kept unchanged. -/
def refResolve (probe : String → Bool) (topic question cand : String) : String :=
  if cand == "" || !is_valid_url cand || !probe cand then
    match search_alternative_url probe topic question with
    | some alt => alt
    | none => cand
  else cand

/-- One iteration of the loop at lines 170-195 restricted to a
text-typed entry (string `question` and `answer`, absent-or-string
`reference`) — the spec's Record data model.  `processEntryDyn` below is
the unrestricted model; `processEntryDyn_of_str` proves this restriction
agrees with it on these entries. -/
def processEntry (probe : String → Bool) (topic difficulty : String) (q : Json) :
    Option Question :=
  match entryAnswer? q, entryRef? q, entryQuestion? q with
  | some answer0, some reference0, some question =>
    let ar := sourceSplit answer0 reference0
    some ⟨question, ar.1, difficulty, topic, refResolve probe topic question ar.2⟩
  | _, _, _ => none

/-- Python truthiness of a payload value (`not reference`, lines 175 and
184). -/
def truthy : Json → Bool
  | .null => false
  | .bool b => b
  | .num n => !(n == 0)
  | .str s => !(s == "")
  | .arr xs => !xs.isEmpty
  | .obj fs => !fs.isEmpty

/-- The membership test `"Source:" in answer` (line 175) on an arbitrary
value, reached only when the reference is falsy: substring search on a
string, element membership on a list, key membership on a dict; any
other value is not iterable and raises (`none`). -/
def markerIn : Json → Option Bool
  | .str s => some (containsSubS sourceMarker s)
  | .arr xs =>
    some (xs.any (fun x =>
      match x with
      | .str s => s == sourceMarker
      | _ => false))
  | .obj fs => some (fs.any (fun p => p.1 == sourceMarker))
  | _ => none

/-- `is_valid_url` on an arbitrary value: `urlparse` raises on a
non-string argument and the surrounding bare `except` returns `False`. -/
def is_valid_urlJ : Json → Bool
  | .str s => is_valid_url s
  | _ => false

/-- `validate_url_access` (the reachability probe) on an arbitrary value:
`requests.head` raises internally on a non-string argument and the
`except` returns `False`. -/
def probeJ (probe : String → Bool) : Json → Bool
  | .str s => probe s
  | _ => false

/-- Lines 174-181 on arbitrary values: the stage is skipped outright when
the reference is truthy; otherwise the membership test may raise
(`none`), and when the marker is found, `answer.split` requires a string
answer — a list or dict answer containing the marker raises.  Returns
`(answer, reference)` on a non-raising path. -/
def sourceSplitDyn (answer0 ref0 : Json) : Option (Json × Json) :=
  if truthy ref0 then some (answer0, ref0)
  else
    match markerIn answer0 with
    | none => none
    | some false => some (answer0, ref0)
    | some true =>
      match answer0 with
      | .str s =>
        let parts := splitOnPyS sourceMarker s
        if 1 < parts.length then
          let potential := pyStripS (parts.getLastD "")
          if is_valid_url potential then
            some (Json.str (pyStripS (parts.headD "")), Json.str potential)
          else some (answer0, ref0)
        else some (answer0, ref0)
      | _ => none

/-- A Record as the loop actually constructs it: the dataclass performs
no type checking, so `question`, `answer` and `reference` carry whatever
values the payload supplied. -/
structure QuestionDyn where
  question : Json
  answer : Json
  difficulty : String
  topic : String
  reference : Json

/-- The placeholder record built by the `except` clause (lines 201-207). -/
def placeholderDyn (topic difficulty : String) : QuestionDyn :=
  ⟨Json.str ("Please explain a key concept in " ++ topic),
   Json.str "This is a placeholder answer. Please try regenerating the questions.",
   difficulty, topic, Json.str ""⟩

/-- One iteration of the loop at lines 170-195 over an arbitrary entry:
`q["answer"]` raises on a missing key or a non-dict entry; the `Source:`
stage follows `sourceSplitDyn`; the resolution condition at line 184
uses truthiness and the error-swallowing URL checks, so it never raises;
when it holds, `search_alternative_url` first indexes `q["question"]`
(raising on a missing key) and then calls `.lower()` on it (raising on a
non-string); the final append indexes `q["question"]` again but accepts
a value of any type.  The `if alternative_url:` guard at line 186 is
equivalent to the search returning a hit, since every candidate URL is a
non-empty string. -/
def processEntryDyn (probe : String → Bool) (topic difficulty : String) (q : Json) :
    Option QuestionDyn :=
  match q with
  | .obj fs =>
    match getKey fs "answer" with
    | none => none
    | some answer0 =>
      match sourceSplitDyn answer0 ((getKey fs "reference").getD (Json.str "")) with
      | none => none
      | some ar =>
        if !truthy ar.2 || !is_valid_urlJ ar.2 || !probeJ probe ar.2 then
          match getKey fs "question" with
          | none => none
          | some (.str question) =>
            (match search_alternative_url probe topic question with
             | some alt => some ⟨Json.str question, ar.1, difficulty, topic, Json.str alt⟩
             | none => some ⟨Json.str question, ar.1, difficulty, topic, ar.2⟩)
          | some _ => none
        else
          match getKey fs "question" with
          | none => none
          | some question0 => some ⟨question0, ar.1, difficulty, topic, ar.2⟩
  | _ => none

/-- The whole loop (lines 168-195): an exception while processing any
entry aborts the batch. -/
def processAllDyn (probe : String → Bool) (topic difficulty : String) :
    List Json → Option (List QuestionDyn)
  | [] => some []
  | e :: rest =>
    match processEntryDyn probe topic difficulty e,
        processAllDyn probe topic difficulty rest with
    | some r, some rs => some (r :: rs)
    | _, _ => none

/-- Model of `InterviewGenerator.generate_interview` (lines 105-207) from
the generator's raw response onwards; this is the spec's
`buildRecords(rawText, topic, difficulty, count)` composed with the
reference resolution the loop performs.  The requested count is accepted
and unused, as in the source (it only shapes the prompt). -/
def generate_interview (probe : String → Bool) (topic difficulty : String)
    (count : Nat) (raw : String) : List QuestionDyn :=
  match (extractEntries raw).bind (processAllDyn probe topic difficulty) with
  | some qs => qs
  | none => [placeholderDyn topic difficulty]

/-- An entry carrying both the `question` and the `answer` key, of any
type; an entry lacking either key (or that is not a dict) always raises. -/
def hasQA : Json → Bool
  | .obj fs => (getKey fs "question").isSome && (getKey fs "answer").isSome
  | _ => false

/-- An entry of the spec's text-typed Record model: string `question` and
`answer`, absent-or-string `reference`.  A sufficient — not necessary —
condition for the loop body to process the entry without raising. -/
def entryStrTyped (e : Json) : Bool :=
  (entryAnswer? e).isSome && (entryRef? e).isSome && (entryQuestion? e).isSome

example :
    generate_interview (fun _ => false) "T" "B" 5
      "\x7b\"questions\": [\x7b\"question\": \"q1\", \"answer\": \"a1\"\x7d]\x7d" =
      [⟨Json.str "q1", Json.str "a1", "B", "T", Json.str ""⟩] := rfl

example :
    generate_interview (fun _ => false) "T" "B" 5 "no structured payload here" =
      [placeholderDyn "T" "B"] := rfl

example :
    generate_interview (fun _ => false) "T" "B" 5 "\x7b\"questions\": []\x7d" = [] := rfl

example :
    generate_interview (fun _ => false) "T" "B" 5
      "\x7b\"questions\": [\x7b\"question\": \"q\", \"answer\": \"a\", \"reference\": 5\x7d]\x7d" =
      [⟨Json.str "q", Json.str "a", "B", "T", Json.num 5⟩] := rfl

example :
    generate_interview (fun _ => false) "T" "B" 5
      "\x7b\"questions\": [\x7b\"question\": \"q\", \"answer\": [\"x\"]\x7d]\x7d" =
      [⟨Json.str "q", Json.arr [Json.str "x"], "B", "T", Json.str ""⟩] := rfl

example :
    generate_interview (fun _ => false) "T" "B" 5
      "\x7b\"questions\": [\x7b\"question\": \"q\", \"answer\": [\"Source:\"]\x7d]\x7d" =
      [placeholderDyn "T" "B"] := rfl

example :
    generate_interview (fun s => s == "https://example.com/x") "T" "B" 5
      "\x7b\"questions\": [\x7b\"question\": 5, \"answer\": \"a\", \"reference\": \"https://example.com/x\"\x7d]\x7d" =
      [⟨Json.num 5, Json.str "a", "B", "T", Json.str "https://example.com/x"⟩] := rfl

/-!
`generate_pdf` (`app.py` lines 210-351).  The document is embedded at the
level of the text cells the code emits: a cover cell list (lines 232-258)
and a content cell flow (lines 273-346).  Each cell records the font
family, style, size, text, fill flag and text colour passed to FPDF.
Geometry (margins, positions, automatic page breaks inside the content
flow) and the decorative separator lines are the PDF library's layout
mechanics and are not part of the embedded text content.
-/

/-- Rendering kind of a maximal run of answer text. -/
inductive SpanKind where
  | prose
  | code
deriving DecidableEq

/-- A classified run of answer text. -/
structure Span where
  kind : SpanKind
  text : String
deriving DecidableEq

/-- One text cell handed to FPDF. -/
structure Cell where
  font : String
  style : String
  size : Nat
  text : String
  fill : Bool
  color : Nat × Nat × Nat
deriving DecidableEq

/-- The triple-delimiter code-fence marker (line 297). -/
def fence : String := "```"

/-- Spans produced from `parts[1:]` of the fence split (lines 306-327):
every odd-indexed part is a code block (always rendered, stripped), and
the even-indexed part that follows it is rendered as prose when non-empty
after stripping. -/
def fencedSpans : List String → List Span
  | [] => []
  | [c] => [⟨.code, pyStripS c⟩]
  | c :: p :: rest =>
    ⟨.code, pyStripS c⟩ ::
      ((if pyStripS p ≠ "" then [⟨.prose, pyStripS p⟩] else []) ++ fencedSpans rest)

/-- Classification of an answer (lines 297-329): with a fence marker
present, split on the marker — `parts[0]` as prose when non-empty after
stripping, then `fencedSpans` on the rest; with no marker, the whole
answer is a single prose span. -/
def classifyAnswer (ans : String) : List Span :=
  if containsSubS fence ans then
    match splitOnPyS fence ans with
    | [] => []
    | p0 :: rest =>
      (if pyStripS p0 ≠ "" then [⟨.prose, pyStripS p0⟩] else []) ++ fencedSpans rest
  else [⟨.prose, ans⟩]

/-- Cells emitted for one span: prose in Arial 12; code in Courier 10 with
grey fill, one cell per source line with trailing whitespace stripped
(lines 311-317 and 302, 326, 329). -/
def spanCells : Span → List Cell
  | ⟨.prose, t⟩ => [⟨"Arial", "", 12, t, false, (0, 0, 0)⟩]
  | ⟨.code, t⟩ =>
    (splitOnPyS "\n" t).map (fun line => ⟨"Courier", "", 10, pyRstripS line, true, (240, 240, 240)⟩)

/-- Cells emitted for the `i`-th record (lines 273-337): question label and
text, red bold answer label, the classified answer, and — when the
reference is non-empty — a blue italic source line. -/
def renderRecord (i : Nat) (q : Question) : List Cell :=
  [⟨"Arial", "B", 13, "Question " ++ toString i ++ ":", false, (0, 0, 0)⟩,
   ⟨"Arial", "", 12, q.question, false, (0, 0, 0)⟩,
   ⟨"Arial", "B", 13, "Answer:", false, (255, 0, 0)⟩] ++
  (classifyAnswer q.answer).flatMap spanCells ++
  (if q.reference ≠ "" then
    [⟨"Arial", "I", 10, "Source: " ++ q.reference, false, (0, 0, 255)⟩]
   else [])

/-- The content flow: records rendered in order, numbered from 1
(`enumerate(questions, 1)`, line 273). -/
def contentCells : Nat → List Question → List Cell
  | _, [] => []
  | i, q :: rest => renderRecord i q ++ contentCells (i + 1) rest

/-- The cover topic (line 215): the first record's topic, or the fixed
default title for an empty record list. -/
def coverTopic : List Question → String
  | [] => "Interview Questions"
  | q :: _ => q.topic

/-- The cover page cells (lines 232-256), all white on the blue background. -/
def coverCells (qs : List Question) : List Cell :=
  [⟨"Arial", "B", 35, "accredian", false, (255, 255, 255)⟩,
   ⟨"Arial", "", 18, "credentials that matter", false, (255, 255, 255)⟩,
   ⟨"Arial", "B", 45, "Interview Questions", false, (255, 255, 255)⟩,
   ⟨"Arial", "", 40, coverTopic qs, false, (255, 255, 255)⟩]

/-- The rendered document: the distinguished cover page followed by the
content flow (the content pages). -/
structure Doc where
  cover : List Cell
  content : List Cell
deriving DecidableEq

/-- Model of `generate_pdf` (lines 210-351). -/
def generate_pdf (qs : List Question) : Doc :=
  ⟨coverCells qs, contentCells 1 qs⟩

/-- The fixed output path (line 349). -/
def pdf_output_path : String := "/tmp/interview_questions.pdf"

/-- The fields of a record that `generate_pdf` reads (`difficulty` is
never consulted by the rendering code). -/
def obsQ (q : Question) : String × String × String × String :=
  (q.question, q.answer, q.reference, q.topic)

example :
    classifyAnswer "BFS visits nodes level by level.\ndef bfs(g):\n  pass" =
      [⟨.prose, "BFS visits nodes level by level.\ndef bfs(g):\n  pass"⟩] := by decide

example :
    classifyAnswer "intro```x = 1\ny = 2```outro" =
      [⟨.prose, "intro"⟩, ⟨.code, "x = 1\ny = 2"⟩, ⟨.prose, "outro"⟩] := by decide

example : classifyAnswer "``````" = [⟨.code, ""⟩] := by decide

example : classifyAnswer "a```b" = [⟨.prose, "a"⟩, ⟨.code, "b"⟩] := by decide

/-! Lemmas about the substring search and Python-style split. -/

theorem isPre_iff {l₁ l₂ : List Char} : l₁.isPrefixOf l₂ = true ↔ l₁ <+: l₂ :=
  List.isPrefixOf_iff_prefix

theorem findSub_some {sep : List Char} :
    ∀ {l : List Char} {i : Nat}, findSub sep l = some i → sep <+: l.drop i := by
  intro l
  induction l with
  | nil =>
    intro i h
    rw [findSub] at h
    split at h
    · injection h with h'
      subst h'
      exact isPre_iff.mp (by assumption)
    · exact absurd h (by simp)
  | cons c t ih =>
    intro i h
    rw [findSub] at h
    split at h
    · injection h with h'
      subst h'
      exact isPre_iff.mp (by assumption)
    · rcases Option.map_eq_some'.mp h with ⟨j, hj, rfl⟩
      simpa using ih hj

theorem findSub_min {sep : List Char} :
    ∀ {l : List Char} {i : Nat}, findSub sep l = some i →
      ∀ j, j < i → ¬ sep <+: l.drop j := by
  intro l
  induction l with
  | nil =>
    intro i h j hj
    rw [findSub] at h
    split at h
    · injection h with h'
      omega
    · exact absurd h (by simp)
  | cons c t ih =>
    intro i h j hj hpre
    rw [findSub] at h
    split at h
    · injection h with h'
      omega
    · rename_i hnp
      rcases Option.map_eq_some'.mp h with ⟨k, hk, rfl⟩
      match j, hj with
      | 0, _ => exact hnp (by simpa using isPre_iff.mpr hpre)
      | j' + 1, hj => exact ih hk j' (by omega) (by simpa using hpre)

theorem findSub_none {sep : List Char} :
    ∀ {l : List Char}, findSub sep l = none → ∀ j, ¬ sep <+: l.drop j := by
  intro l
  induction l with
  | nil =>
    intro h j hpre
    rw [findSub] at h
    split at h
    · exact absurd h (by simp)
    · rename_i hnp
      rw [List.drop_nil] at hpre
      exact hnp (isPre_iff.mpr hpre)
  | cons c t ih =>
    intro h j hpre
    rw [findSub] at h
    split at h
    · exact absurd h (by simp)
    · rename_i hnp
      rcases j with _ | j'
      · exact hnp (by simpa using isPre_iff.mpr hpre)
      · exact ih (by simpa using h) j' (by simpa using hpre)

theorem containsSub_iff_occ {sep l : List Char} :
    containsSub sep l = true ↔ ∃ i, sep <+: l.drop i := by
  unfold containsSub
  constructor
  · intro h
    rcases Option.isSome_iff_exists.mp h with ⟨i, hi⟩
    exact ⟨i, findSub_some hi⟩
  · rintro ⟨i, hi⟩
    cases hfs : findSub sep l with
    | some k => simp [hfs]
    | none => exact absurd hi (findSub_none hfs i)

theorem occ_mono {sep l₁ l₂ : List Char} (hsub : l₁ <:+: l₂)
    (h : ∃ i, sep <+: l₁.drop i) : ∃ i, sep <+: l₂.drop i := by
  rcases hsub with ⟨u, v, rfl⟩
  rcases h with ⟨i, hi⟩
  refine ⟨u.length + min i l₁.length, ?_⟩
  rw [List.append_assoc, List.drop_append]
  rw [List.drop_append_of_le_length (Nat.min_le_right i l₁.length)]
  have hdrop : l₁.drop (min i l₁.length) = l₁.drop i := by
    rcases Nat.le_total i l₁.length with hle | hle
    · rw [Nat.min_eq_left hle]
    · rw [Nat.min_eq_right hle, List.drop_eq_nil_of_le hle, List.drop_eq_nil_of_le]
      omega
  rw [hdrop]
  exact hi.trans ⟨v, rfl⟩

theorem containsSub_mono {sep l₁ l₂ : List Char} (hsub : l₁ <:+: l₂)
    (h : containsSub sep l₁ = true) : containsSub sep l₂ = true :=
  containsSub_iff_occ.mpr (occ_mono hsub (containsSub_iff_occ.mp h))

theorem pyStrip_isInfix (l : List Char) : pyStrip l <:+: l := by
  unfold pyStrip
  have h1 : l.dropWhile pyWs <:+ l := List.dropWhile_suffix pyWs
  have h2 : ((l.dropWhile pyWs).reverse.dropWhile pyWs).reverse <+: l.dropWhile pyWs := by
    rw [← List.reverse_suffix, List.reverse_reverse]
    exact List.dropWhile_suffix pyWs
  exact h2.isInfix.trans h1.isInfix

theorem splitOnAux_ne_nil {sep : List Char} {fuel : Nat} {l : List Char} :
    splitOnAux sep fuel l ≠ [] := by
  cases fuel with
  | zero => simp [splitOnAux]
  | succ n =>
    rw [splitOnAux]
    cases findSub sep l with
    | none => simp
    | some i => simp

theorem splitOnAux_no_occ {sep : List Char} (hs : sep ≠ []) :
    ∀ fuel l, l.length < fuel →
      ∀ p ∈ splitOnAux sep fuel l, containsSub sep p = false := by
  intro fuel
  induction fuel with
  | zero => intro l hl; omega
  | succ n ih =>
    intro l hl p hp
    rw [splitOnAux] at hp
    cases hfs : findSub sep l with
    | none =>
      rw [hfs] at hp
      simp only [List.mem_singleton] at hp
      subst hp
      unfold containsSub
      rw [hfs]
      rfl
    | some i =>
      rw [hfs] at hp
      rcases List.mem_cons.mp hp with rfl | htail
      · by_contra hcon
        rw [Bool.not_eq_false] at hcon
        rcases containsSub_iff_occ.mp hcon with ⟨j, hj⟩
        have hjlt : j < i := by
          have hne : (l.take i).drop j ≠ [] := by
            intro hnil
            rw [hnil] at hj
            exact hs (List.prefix_nil.mp hj)
          have : j < (l.take i).length := by
            by_contra hge
            exact hne (List.drop_eq_nil_of_le (by omega))
          have := l.length_take i ▸ this
          omega
        refine findSub_min hfs j hjlt ?_
        have : (l.take i).drop j <+: l.drop j := by
          rw [List.drop_take]
          exact ⟨(l.drop j).drop (i - j), List.take_append_drop _ _⟩
        exact hj.trans this
      · have hpre := findSub_some hfs
        have hlen : sep.length ≤ (l.drop i).length := hpre.length_le
        have hsl : 1 ≤ sep.length := by
          cases sep with
          | nil => exact absurd rfl hs
          | cons a b => simp
        have hll : (l.drop (i + sep.length)).length < n := by
          rw [List.length_drop]
          rw [List.length_drop] at hlen
          omega
        exact ih (l.drop (i + sep.length)) hll p htail

theorem splitOnPy_no_occ {sep l : List Char} (hs : sep ≠ []) :
    ∀ p ∈ splitOnPy sep l, containsSub sep p = false :=
  splitOnAux_no_occ hs (l.length + 1) l (Nat.lt_succ_self _)

theorem splitOnPy_length_ge_two {sep l : List Char} (h : containsSub sep l = true) :
    2 ≤ (splitOnPy sep l).length := by
  unfold containsSub at h
  rcases Option.isSome_iff_exists.mp h with ⟨i, hi⟩
  unfold splitOnPy
  rw [splitOnAux, hi]
  have := @splitOnAux_ne_nil sep l.length (l.drop (i + sep.length))
  simp only [List.length_cons]
  have : 1 ≤ (splitOnAux sep l.length (l.drop (i + sep.length))).length :=
    List.length_pos.mpr this
  omega

theorem splitOnPy_eq_single {sep l : List Char} (h : containsSub sep l = false) :
    splitOnPy sep l = [l] := by
  unfold containsSub at h
  unfold splitOnPy
  rw [splitOnAux]
  cases hfs : findSub sep l with
  | none => rfl
  | some i => rw [hfs] at h; simp at h

/-! Lemmas about the answer classification. -/

/-- The number of fence markers in an answer (non-overlapping count, as
Python's `split` sees them). -/
def fenceCountS (ans : String) : Nat := (splitOnPyS fence ans).length - 1

theorem splitOnPyS_ne_nil {sep s : String} : splitOnPyS sep s ≠ [] := by
  unfold splitOnPyS splitOnPy
  intro h
  exact splitOnAux_ne_nil (List.map_eq_nil_iff.mp h)

theorem containsSubS_of_fenceCount {ans : String} (h : 1 ≤ fenceCountS ans) :
    containsSubS fence ans = true := by
  by_contra hc
  rw [Bool.not_eq_true] at hc
  unfold fenceCountS at h
  unfold splitOnPyS at h
  rw [splitOnPy_eq_single hc] at h
  simp at h

theorem classifyAnswer_unfenced {ans : String} (h : containsSubS fence ans = false) :
    classifyAnswer ans = [⟨.prose, ans⟩] := by
  simp [classifyAnswer, h]

theorem fencedSpans_code_count (l : List String) :
    (fencedSpans l).countP (fun s => s.kind == SpanKind.code) = (l.length + 1) / 2 := by
  induction l using fencedSpans.induct with
  | case1 => simp [fencedSpans]
  | case2 c =>
    rw [fencedSpans, List.countP_cons, List.countP_nil]
    simp
  | case3 c p rest ih =>
    rw [fencedSpans, List.countP_cons, List.countP_append]
    have hpr : ∀ t : String, ((⟨.prose, t⟩ : Span).kind == SpanKind.code) = false :=
      fun _ => rfl
    have hpiece :
        (if pyStripS p ≠ "" then [(⟨.prose, pyStripS p⟩ : Span)] else []).countP
          (fun s => s.kind == SpanKind.code) = 0 := by
      split
      · rw [List.countP_cons, List.countP_nil, hpr]
        rfl
      · rw [List.countP_nil]
    rw [hpiece, ih]
    have hcd : ((⟨.code, pyStripS c⟩ : Span).kind == SpanKind.code) = true := rfl
    rw [hcd]
    simp only [List.length_cons, if_true]
    omega

theorem fencedSpans_prose (l : List String) :
    ∀ s ∈ fencedSpans l, s.kind = SpanKind.prose →
      ∃ p ∈ l, s.text = pyStripS p ∧ s.text ≠ "" := by
  induction l using fencedSpans.induct with
  | case1 => simp [fencedSpans]
  | case2 c =>
    intro s hs hk
    simp only [fencedSpans, List.mem_singleton] at hs
    subst hs
    simp at hk
  | case3 c p rest ih =>
    intro s hs hk
    rw [fencedSpans] at hs
    rcases List.mem_cons.mp hs with rfl | hs'
    · simp at hk
    · rcases List.mem_append.mp hs' with hmid | htail
      · by_cases hp : pyStripS p ≠ ""
        · rw [if_pos hp] at hmid
          simp only [List.mem_singleton] at hmid
          subst hmid
          exact ⟨p, by simp, rfl, hp⟩
        · rw [if_neg hp] at hmid
          simp at hmid
      · rcases ih s htail hk with ⟨q, hq, hqt, hqn⟩
        exact ⟨q, by simp [hq], hqt, hqn⟩

theorem fencedSpans_ne_nil {l : List String} (h : l ≠ []) : fencedSpans l ≠ [] := by
  cases l with
  | nil => exact absurd rfl h
  | cons c t =>
    cases t with
    | nil => simp [fencedSpans]
    | cons p rest => simp [fencedSpans]

theorem fencedSpans_getLast_odd (l : List String) (h : l.length % 2 = 1) :
    (fencedSpans l).getLast? = some ⟨.code, pyStripS (l.getLastD "")⟩ := by
  induction l using fencedSpans.induct with
  | case1 => simp at h
  | case2 c => simp [fencedSpans, List.getLastD]
  | case3 c p rest ih =>
    have hrest : rest.length % 2 = 1 := by
      simp only [List.length_cons] at h
      omega
    have hrne : rest ≠ [] := by
      intro hn
      rw [hn] at hrest
      simp at hrest
    rw [fencedSpans]
    have hlast := ih hrest
    have hfne : fencedSpans rest ≠ [] := fencedSpans_ne_nil hrne
    rw [show (⟨.code, pyStripS c⟩ : Span) ::
        ((if pyStripS p ≠ "" then [(⟨.prose, pyStripS p⟩ : Span)] else []) ++ fencedSpans rest) =
        ([(⟨.code, pyStripS c⟩ : Span)] ++
          (if pyStripS p ≠ "" then [(⟨.prose, pyStripS p⟩ : Span)] else [])) ++ fencedSpans rest
      from by simp]
    rw [List.getLast?_append, hlast]
    have hgl : (c :: p :: rest).getLastD "" = rest.getLastD "" := by
      rw [List.getLastD_eq_getLast?, List.getLastD_eq_getLast?]
      rw [show c :: p :: rest = [c, p] ++ rest from rfl, List.getLast?_append]
      cases hq : rest.getLast? with
      | none => exact absurd (List.getLast?_eq_none_iff.mp hq) hrne
      | some w => simp
    rw [hgl]
    rfl

/-! Lemmas about entry processing. -/

theorem processEntry_eq_some {probe : String → Bool} {t d : String} {e : Json} {r : Question} :
    processEntry probe t d e = some r ↔
      ∃ a rf q, entryAnswer? e = some a ∧ entryRef? e = some rf ∧ entryQuestion? e = some q ∧
        r = ⟨q, (sourceSplit a rf).1, d, t, refResolve probe t q (sourceSplit a rf).2⟩ := by
  unfold processEntry
  cases ha : entryAnswer? e <;> cases hr : entryRef? e <;> cases hq : entryQuestion? e <;>
    simp [eq_comm]

theorem sourceSplitDyn_str (a rf : String) :
    sourceSplitDyn (Json.str a) (Json.str rf) =
      some (Json.str (sourceSplit a rf).1, Json.str (sourceSplit a rf).2) := by
  by_cases h0 : rf = ""
  · subst h0
    cases hc : containsSubS sourceMarker a with
    | false => simp [sourceSplitDyn, truthy, markerIn, sourceSplit, hc]
    | true =>
      by_cases hl : 1 < (splitOnPyS sourceMarker a).length
      · by_cases hv :
            is_valid_url (pyStripS ((splitOnPyS sourceMarker a).getLast?.getD "")) = true
        · simp [sourceSplitDyn, truthy, markerIn, sourceSplit, hc, hl, hv]
        · simp [sourceSplitDyn, truthy, markerIn, sourceSplit, hc, hl, hv]
      · simp [sourceSplitDyn, truthy, markerIn, sourceSplit, hc, hl]
  · have ht : truthy (Json.str rf) = true := by
      simp [truthy, h0]
    have hb : (rf == "") = false := by
      simp [h0]
    simp [sourceSplitDyn, ht, sourceSplit, hb]

theorem processEntryDyn_of_str {probe : String → Bool} {t d : String} {e : Json}
    {a rf q : String} (ha : entryAnswer? e = some a) (hr : entryRef? e = some rf)
    (hq : entryQuestion? e = some q) :
    processEntryDyn probe t d e =
      some ⟨Json.str q, Json.str (sourceSplit a rf).1, d, t,
        Json.str (refResolve probe t q (sourceSplit a rf).2)⟩ := by
  cases e with
  | null => exact Option.noConfusion ha
  | bool b => exact Option.noConfusion ha
  | num n => exact Option.noConfusion ha
  | str s => exact Option.noConfusion ha
  | arr xs => exact Option.noConfusion ha
  | obj fs =>
    have hga : getKey fs "answer" = some (Json.str a) := by
      simp only [entryAnswer?] at ha
      split at ha
      · rename_i s heq
        injection ha with ha'
        rw [heq, ha']
      · exact Option.noConfusion ha
    have hgq : getKey fs "question" = some (Json.str q) := by
      simp only [entryQuestion?] at hq
      split at hq
      · rename_i s heq
        injection hq with hq'
        rw [heq, hq']
      · exact Option.noConfusion hq
    have hgr : (getKey fs "reference").getD (Json.str "") = Json.str rf := by
      simp only [entryRef?] at hr
      split at hr
      · rename_i heq
        injection hr with hr'
        rw [heq, ← hr']
        rfl
      · rename_i s heq
        injection hr with hr'
        rw [heq, hr']
        rfl
      · exact Option.noConfusion hr
    rcases hsp : sourceSplit a rf with ⟨s1, s2⟩
    have hcond : (!truthy (Json.str s2) || !is_valid_urlJ (Json.str s2) ||
        !probeJ probe (Json.str s2)) = (s2 == "" || !is_valid_url s2 || !probe s2) := by
      simp [truthy, is_valid_urlJ, probeJ]
    by_cases hrc : (s2 == "" || !is_valid_url s2 || !probe s2) = true
    · have hrc2 : (!truthy (Json.str s2) || !is_valid_urlJ (Json.str s2) ||
          !probeJ probe (Json.str s2)) = true := by rw [hcond]; exact hrc
      cases hs : search_alternative_url probe t q with
      | some alt =>
        simp [processEntryDyn, hga, hgr, sourceSplitDyn_str, hsp, hgq, hrc, hrc2,
          refResolve, hs]
      | none =>
        simp [processEntryDyn, hga, hgr, sourceSplitDyn_str, hsp, hgq, hrc, hrc2,
          refResolve, hs]
    · have hrc2 : ¬(!truthy (Json.str s2) || !is_valid_urlJ (Json.str s2) ||
          !probeJ probe (Json.str s2)) = true := by rw [hcond]; exact hrc
      simp [processEntryDyn, hga, hgr, sourceSplitDyn_str, hsp, hgq, hrc, hrc2, refResolve]

theorem processEntryDyn_none_of_noQA {probe : String → Bool} {t d : String} {e : Json}
    (h : hasQA e = false) : processEntryDyn probe t d e = none := by
  cases e with
  | null => rfl
  | bool b => rfl
  | num n => rfl
  | str s => rfl
  | arr xs => rfl
  | obj fs =>
    simp only [hasQA] at h
    cases hka : getKey fs "answer" with
    | none => simp only [processEntryDyn, hka]
    | some a0 =>
      have hkq : getKey fs "question" = none := by
        rw [hka] at h
        cases hk : getKey fs "question" with
        | none => rfl
        | some q0 => rw [hk] at h; simp at h
      simp only [processEntryDyn, hka]
      cases hsp : sourceSplitDyn a0 ((getKey fs "reference").getD (Json.str "")) with
      | none => rfl
      | some ar =>
        simp only [hkq]
        split <;> rfl

theorem processAllDyn_length {probe : String → Bool} {t d : String} :
    ∀ {es : List Json} {qs : List QuestionDyn},
      processAllDyn probe t d es = some qs → qs.length = es.length := by
  intro es
  induction es with
  | nil =>
    intro qs h
    rw [processAllDyn] at h
    injection h with h'
    rw [← h']
    rfl
  | cons e rest ih =>
    intro qs h
    rw [processAllDyn] at h
    cases hpe : processEntryDyn probe t d e with
    | none => rw [hpe] at h; exact absurd h (by simp)
    | some r =>
      rw [hpe] at h
      cases hpr : processAllDyn probe t d rest with
      | none => rw [hpr] at h; exact absurd h (by simp)
      | some rs =>
        rw [hpr] at h
        injection h with h'
        rw [← h']
        simp [ih hpr]

theorem processAllDyn_of_str (probe : String → Bool) (t d : String) :
    ∀ {es : List Json}, (∀ e ∈ es, entryStrTyped e = true) →
      ∃ qs, processAllDyn probe t d es = some qs ∧ qs.length = es.length ∧
        ∀ k, (qs.get? k).map QuestionDyn.question =
          (es.get? k).map (fun e => Json.str ((entryQuestion? e).getD "")) := by
  intro es
  induction es with
  | nil => exact fun _ => ⟨[], rfl, rfl, fun k => by cases k <;> rfl⟩
  | cons e rest ih =>
    intro h
    have he : entryStrTyped e = true := h e (by simp)
    rcases ih (fun x hx => h x (by simp [hx])) with ⟨qs, hqs, hlen, hquest⟩
    rw [entryStrTyped, Bool.and_eq_true, Bool.and_eq_true] at he
    rcases Option.isSome_iff_exists.mp he.1.1 with ⟨a, ha⟩
    rcases Option.isSome_iff_exists.mp he.1.2 with ⟨rf, hrf⟩
    rcases Option.isSome_iff_exists.mp he.2 with ⟨q, hq⟩
    refine ⟨⟨Json.str q, Json.str (sourceSplit a rf).1, d, t,
        Json.str (refResolve probe t q (sourceSplit a rf).2)⟩ :: qs, ?_, by simp [hlen], ?_⟩
    · rw [processAllDyn, processEntryDyn_of_str ha hrf hq, hqs]
    · intro k
      cases k with
      | zero => simp [hq]
      | succ k' => simpa using hquest k'

theorem processAllDyn_of_noQA (probe : String → Bool) (t d : String) :
    ∀ {es : List Json}, (∃ e ∈ es, hasQA e = false) →
      processAllDyn probe t d es = none := by
  intro es
  induction es with
  | nil => rintro ⟨e, he, _⟩; simp at he
  | cons e rest ih =>
    rintro ⟨x, hx, hbad⟩
    rcases List.mem_cons.mp hx with rfl | hx'
    · rw [processAllDyn, processEntryDyn_none_of_noQA hbad]
    · rw [processAllDyn, ih ⟨x, hx', hbad⟩]
      cases processEntryDyn probe t d e <;> rfl

theorem generate_interview_of_none {probe : String → Bool} {t d : String} {n : Nat}
    {raw : String} (h : (extractEntries raw).bind (processAllDyn probe t d) = none) :
    generate_interview probe t d n raw = [placeholderDyn t d] := by
  unfold generate_interview
  rw [h]

theorem generate_interview_of_some {probe : String → Bool} {t d : String} {n : Nat}
    {raw : String} {qs : List QuestionDyn}
    (h : (extractEntries raw).bind (processAllDyn probe t d) = some qs) :
    generate_interview probe t d n raw = qs := by
  unfold generate_interview
  rw [h]

/-! Lemmas about the fallback search and reference resolution. -/

theorem findSome?_probe {probe : String → Bool} {path u : String} :
    ∀ {bs : List String},
      bs.findSome? (fun base =>
        if probe (base ++ path) then some (base ++ path) else none) = some u →
      probe u = true ∧ ∃ b ∈ bs, u = b ++ path := by
  intro bs
  induction bs with
  | nil => intro h; simp [List.findSome?] at h
  | cons b rest ih =>
    intro h
    rw [List.findSome?] at h
    by_cases hp : probe (b ++ path) = true
    · rw [if_pos hp] at h
      have h' : some (b ++ path) = some u := h
      injection h' with h''
      exact ⟨h'' ▸ hp, b, by simp, h''.symm⟩
    · rw [if_neg hp] at h
      have h' : rest.findSome?
          (fun base => if probe (base ++ path) then some (base ++ path) else none) = some u := h
      rcases ih h' with ⟨hpu, b', hb', hep⟩
      exact ⟨hpu, b', by simp [hb'], hep⟩

theorem search_alternative_some {probe : String → Bool} {t q u : String}
    (h : search_alternative_url probe t q = some u) :
    probe u = true ∧ u ≠ "" := by
  unfold search_alternative_url at h
  rcases findSome?_probe h with ⟨hp, b, hb, rfl⟩
  refine ⟨hp, ?_⟩
  have hbl : 0 < b.length := by
    fin_cases hb <;> decide
  intro he
  have hlen : (b ++ String.intercalate "-" ((keywords q).take 3)).length = 0 := by
    rw [he]
    rfl
  rw [String.length_append] at hlen
  omega

theorem refResolve_of_some {probe : String → Bool} {t q cand u : String}
    (hs : search_alternative_url probe t q = some u) :
    probe (refResolve probe t q cand) = true ∧ refResolve probe t q cand ≠ "" := by
  unfold refResolve
  split
  · rw [hs]
    exact search_alternative_some hs
  · rename_i hcond
    rw [Bool.not_eq_true, Bool.or_eq_false_iff, Bool.or_eq_false_iff] at hcond
    rcases hcond with ⟨⟨hne, _⟩, hpr⟩
    rw [Bool.not_eq_false'] at hpr
    refine ⟨hpr, ?_⟩
    intro he
    rw [he] at hne
    simp at hne

theorem refResolve_of_none {probe : String → Bool} {t q cand : String}
    (hs : search_alternative_url probe t q = none) :
    refResolve probe t q cand = cand := by
  unfold refResolve
  split
  · rw [hs]
  · rfl

/-! Lemmas about the pre-parse content transformation. -/

theorem collapseNL_no_nl : ∀ l : List Char, '\n' ∉ collapseNL l ∧ '\r' ∉ collapseNL l := by
  intro l
  induction l with
  | nil => simp [collapseNL]
  | cons c t ih =>
    rw [collapseNL]
    split
    · simpa using ih
    · split
      · exact ih
      · rename_i hn hr
        simp only [List.mem_cons]
        constructor
        · rintro (h | h)
          · exact hn h.symm
          · exact ih.1 h
        · rintro (h | h)
          · exact hr h.symm
          · exact ih.2 h

theorem braceSlice_mem {s : String} {c : Char} (h : c ∈ (braceSlice s).data) :
    c ∈ s.data := by
  unfold braceSlice at h
  split at h
  · have h' : c ∈ (s.data.take _).drop _ := h
    exact List.mem_of_mem_take (List.mem_of_mem_drop h')
  · exact h

theorem pipelineContent_no_nl (raw : String) :
    '\n' ∉ (pipelineContent raw).data ∧ '\r' ∉ (pipelineContent raw).data := by
  unfold pipelineContent
  constructor
  · intro h
    exact (collapseNL_no_nl (pyStripS raw).data).1 (braceSlice_mem h)
  · intro h
    exact (collapseNL_no_nl (pyStripS raw).data).2 (braceSlice_mem h)

/-! Lemmas about document rendering. -/

theorem renderRecord_congr {i : Nat} {a b : Question} (h : obsQ a = obsQ b) :
    renderRecord i a = renderRecord i b := by
  obtain ⟨h1, h2, h3, h4⟩ : a.question = b.question ∧ a.answer = b.answer ∧
      a.reference = b.reference ∧ a.topic = b.topic := by
    simpa [obsQ, Prod.ext_iff] using h
  unfold renderRecord
  rw [h1, h2, h3]

theorem contentCells_congr : ∀ {qs₁ qs₂ : List Question} (i : Nat),
    qs₁.map obsQ = qs₂.map obsQ → contentCells i qs₁ = contentCells i qs₂ := by
  intro qs₁
  induction qs₁ with
  | nil =>
    intro qs₂ i h
    rw [List.map_nil] at h
    rw [List.map_eq_nil_iff.mp h.symm]
  | cons a t ih =>
    intro qs₂ i h
    cases qs₂ with
    | nil => simp at h
    | cons b t₂ =>
      simp only [List.map_cons, List.cons.injEq] at h
      rw [contentCells, contentCells, renderRecord_congr h.1, ih _ h.2]

theorem coverTopic_congr {qs₁ qs₂ : List Question} (h : qs₁.map obsQ = qs₂.map obsQ) :
    coverTopic qs₁ = coverTopic qs₂ := by
  cases qs₁ with
  | nil =>
    cases qs₂ with
    | nil => rfl
    | cons b t₂ => simp at h
  | cons a t =>
    cases qs₂ with
    | nil => simp at h
    | cons b t₂ =>
      simp only [List.map_cons, List.cons.injEq] at h
      have h4 : a.question = b.question ∧ a.answer = b.answer ∧
          a.reference = b.reference ∧ a.topic = b.topic := by
        simpa [obsQ, Prod.ext_iff] using h.1
      rw [coverTopic, coverTopic, h4.2.2.2]

theorem question_cell_mem : ∀ {qs : List Question} (i : Nat) {q : Question}, q ∈ qs →
    (⟨"Arial", "", 12, q.question, false, (0, 0, 0)⟩ : Cell) ∈ contentCells i qs := by
  intro qs
  induction qs with
  | nil => intro i q h; simp at h
  | cons a t ih =>
    intro i q h
    rw [contentCells]
    rcases List.mem_cons.mp h with rfl | h'
    · exact List.mem_append_left _ (by simp [renderRecord])
    · exact List.mem_append_right _ (ih (i + 1) h')

theorem answer_cell_mem : ∀ {qs : List Question} (i : Nat) {q : Question}, q ∈ qs →
    containsSubS fence q.answer = false →
    (⟨"Arial", "", 12, q.answer, false, (0, 0, 0)⟩ : Cell) ∈ contentCells i qs := by
  intro qs
  induction qs with
  | nil => intro i q h; simp at h
  | cons a t ih =>
    intro i q h hf
    rw [contentCells]
    rcases List.mem_cons.mp h with rfl | h'
    · refine List.mem_append_left _ ?_
      unfold renderRecord
      rw [classifyAnswer_unfenced hf]
      simp [spanCells]
    · exact List.mem_append_right _ (ih (i + 1) h' hf)

theorem splitOnPyS_strip_clean {sep s : String} (hsep : sep.data ≠ []) :
    ∀ p ∈ splitOnPyS sep s, containsSubS sep (pyStripS p) = false := by
  intro p hp
  unfold splitOnPyS at hp
  rcases List.mem_map.mp hp with ⟨piece, hpiece, rfl⟩
  by_contra hc
  rw [Bool.not_eq_false] at hc
  have hocc : containsSub sep.data piece = true :=
    containsSub_mono (pyStrip_isInfix piece) hc
  rw [splitOnPy_no_occ hsep piece hpiece] at hocc
  exact Bool.noConfusion hocc

/-!
The claims.  Each claim of the frozen list receives one theorem below;
corrected claims additionally receive a counterexample theorem refuting
the claim as originally stated at a concrete input.
-/

/-- Claim C1 counterexample: a raw input whose structured payload parses
with an empty `questions` list makes `generate_interview` return the
empty sequence — not the single placeholder Record the claim promises, so
the result is not always non-empty. -/
theorem c1_counterexample :
    generate_interview (fun _ => false) "Graphs" "Beginner" 5 "\x7b\"questions\": []\x7d" = [] ∧
    ([] : List QuestionDyn) ≠ [placeholderDyn "Graphs" "Beginner"] := by
  refine ⟨rfl, ?_⟩
  intro h
  exact List.noConfusion h

/-- Claim C1 (amended): `generate_interview` returns exactly one
placeholder Record whenever no structured payload can be extracted or the
loop raises while processing any entry (it never raises past its
boundary), and otherwise returns one Record per extracted entry — in
particular the empty sequence, not a placeholder, when the extracted
entry list is empty. -/
theorem c1_amended (probe : String → Bool) (topic difficulty : String) (count : Nat)
    (raw : String) :
    ((extractEntries raw).bind (processAllDyn probe topic difficulty) = none →
      generate_interview probe topic difficulty count raw =
        [placeholderDyn topic difficulty]) ∧
    (∀ es qs, extractEntries raw = some es →
      processAllDyn probe topic difficulty es = some qs →
      generate_interview probe topic difficulty count raw = qs ∧ qs.length = es.length) := by
  constructor
  · exact generate_interview_of_none
  · intro es qs hes hqs
    refine ⟨generate_interview_of_some ?_, processAllDyn_length hqs⟩
    rw [hes]
    simpa using hqs

/-- Witness for the C1 theorem at a concrete unparseable input. -/
theorem c1_amended_witness :
    generate_interview (fun _ => false) "T" "B" 5 "no structured payload" =
      [placeholderDyn "T" "B"] :=
  (c1_amended (fun _ => false) "T" "B" 5 "no structured payload").1 rfl

/-- A raw payload with one well-formed entry and one entry missing its
`answer` field (C2 counterexample input). -/
def c2raw : String :=
  "\x7b\"questions\": [\x7b\"question\": \"q1\", \"answer\": \"a1\"\x7d, \x7b\"question\": \"q2\"\x7d]\x7d"

/-- Claim C2 counterexample: an entry missing the `answer` field is not
dropped — the `KeyError` escapes the loop, the whole batch collapses to
the single placeholder, and the well-formed `q1` entry is not retained. -/
theorem c2_counterexample :
    generate_interview (fun _ => false) "T" "B" 5 c2raw = [placeholderDyn "T" "B"] ∧
    (placeholderDyn "T" "B").question ≠ Json.str "q1" := by
  refine ⟨rfl, ?_⟩
  intro h
  exact absurd (Json.str.inj h) (by decide)

/-- Claim C2 (amended): entries are never dropped individually.  When
every entry is text-typed (string `question` and `answer`, absent-or-
string `reference`) the code returns exactly one Record per entry, in
order, with each Record's question taken from its entry; and an entry
missing the `question` key or the `answer` key collapses the entire
result to the single placeholder Record — well-formed sibling entries are
lost, not retained.  (Entries carrying both keys with non-string values
are processed or collapse the batch per Python's dynamic typing; in no
case is a single entry dropped from the output.) -/
theorem c2_amended (probe : String → Bool) (topic difficulty : String) (count : Nat)
    (raw : String) (es : List Json) (h : extractEntries raw = some es) :
    ((∀ e ∈ es, entryStrTyped e = true) →
      (generate_interview probe topic difficulty count raw).length = es.length ∧
      ∀ k, ((generate_interview probe topic difficulty count raw).get? k).map
          QuestionDyn.question =
        (es.get? k).map (fun e => Json.str ((entryQuestion? e).getD ""))) ∧
    ((∃ e ∈ es, hasQA e = false) →
      generate_interview probe topic difficulty count raw =
        [placeholderDyn topic difficulty]) := by
  constructor
  · intro hwf
    rcases processAllDyn_of_str probe topic difficulty hwf with ⟨qs, hqs, hlen, hq⟩
    have hg : generate_interview probe topic difficulty count raw = qs :=
      generate_interview_of_some (by rw [h]; simpa using hqs)
    rw [hg]
    exact ⟨hlen, hq⟩
  · intro hbad
    apply generate_interview_of_none
    rw [h]
    simpa using processAllDyn_of_noQA probe topic difficulty hbad

/-- A raw payload with a single well-formed entry (C2 witness input). -/
def c2wraw : String :=
  "\x7b\"questions\": [\x7b\"question\": \"q1\", \"answer\": \"a1\"\x7d]\x7d"

/-- The entry list the C2 witness input parses to. -/
def c2wes : List Json :=
  [Json.obj [("question", Json.str "q1"), ("answer", Json.str "a1")]]

/-- Witness for the C2 theorem at a concrete well-formed input. -/
theorem c2_amended_witness :
    (generate_interview (fun _ => false) "T" "B" 5 c2wraw).length = 1 := by
  have h := (c2_amended (fun _ => false) "T" "B" 5 c2wraw c2wes rfl).1 (by decide)
  exact h.1.trans rfl

/-- A raw blob that is directly parseable as structured data (a top-level
array), used as the C3 counterexample input. -/
def c3raw : String :=
  "[\x7b\"questions\": [\x7b\"question\": \"q1\", \"answer\": \"a1\"\x7d]\x7d]"

/-- The value a direct parse of the C3 blob yields. -/
def c3direct : Json :=
  Json.arr [Json.obj [("questions",
    Json.arr [Json.obj [("question", Json.str "q1"), ("answer", Json.str "a1")]])]]

/-- The value the code's transformed content parses to for the C3 blob. -/
def c3sliced : Json :=
  Json.obj [("questions",
    Json.arr [Json.obj [("question", Json.str "q1"), ("answer", Json.str "a1")]])]

/-- Claim C3 counterexample: a blob that parses directly is nevertheless
not parsed unmodified — the unconditional brace-substring extraction
rewrites it, and the payload the code obtains differs from the direct
parse of the blob, so no direct-parse-first repair ladder exists. -/
theorem c3_counterexample :
    jsonParse (pyStripS c3raw) = some c3direct ∧
    jsonParse (pipelineContent c3raw) = some c3sliced ∧
    pipelineContent c3raw ≠ pyStripS c3raw ∧
    c3direct ≠ c3sliced := by
  refine ⟨rfl, rfl, by decide, ?_⟩
  intro h
  exact Json.noConfusion h

/-- Claim C3 (amended): there is no three-step repair ladder — the parse
is a single attempt over content that is unconditionally stripped,
newline/carriage-return collapsed, and sliced from the first `{` to the
last `}`; in particular the content handed to the parse never contains a
newline or carriage return, even when the raw blob was directly
parseable. -/
theorem c3_amended (raw : String) :
    extractEntries raw =
      (jsonParse (braceSlice (collapseNlS (pyStripS raw)))).bind entriesOfPayload ∧
    '\n' ∉ (pipelineContent raw).data ∧ '\r' ∉ (pipelineContent raw).data :=
  ⟨rfl, (pipelineContent_no_nl raw).1, (pipelineContent_no_nl raw).2⟩

/-- An entry whose candidate reference is syntactically invalid (C4
counterexample input). -/
def c4entry : Json :=
  Json.obj [("question", Json.str "What is X"), ("answer", Json.str "a"),
    ("reference", Json.str "notaurl")]

/-- Claim C4 counterexample: with an invalid non-empty candidate reference
and no reachable fallback, the resolver keeps the invalid candidate — the
Record's reference is `"notaurl"`, not left empty as the claim states. -/
theorem c4_counterexample :
    processEntry (fun _ => false) "T" "B" c4entry =
      some ⟨"What is X", "a", "B", "T", "notaurl"⟩ ∧
    is_valid_url "notaurl" = false ∧ "notaurl" ≠ "" := by
  refine ⟨by decide, by decide, by decide⟩

/-- Claim C4 (amended): when at least one fallback base-plus-keywords
candidate is reachable, the resolved reference always passes the probe and
is non-empty; when no fallback is reachable, the candidate reference
(after the `Source:` split) is kept unchanged — so an absent candidate
stays empty, but an invalid non-empty candidate is kept rather than
emptied. -/
theorem c4_amended (probe : String → Bool) (t d : String) (e : Json) (r : Question)
    (h : processEntry probe t d e = some r) :
    (∀ u, search_alternative_url probe t r.question = some u →
      probe r.reference = true ∧ r.reference ≠ "") ∧
    (search_alternative_url probe t r.question = none →
      ∃ a rf, entryAnswer? e = some a ∧ entryRef? e = some rf ∧
        r.reference = (sourceSplit a rf).2) := by
  rcases processEntry_eq_some.mp h with ⟨a, rf, q, ha, hr, hq, rfl⟩
  constructor
  · intro u hu
    exact refResolve_of_some hu
  · intro hn
    exact ⟨a, rf, ha, hr, by
      show refResolve probe t q (sourceSplit a rf).2 = (sourceSplit a rf).2
      exact refResolve_of_none hn⟩

/-- The probe of the C4 witness: exactly one fallback candidate reachable. -/
def probe4 (s : String) : Bool := s == "https://docs.python.org/3/explain-machine-learning"

/-- The C4 witness entry (no candidate reference at all). -/
def c4wentry : Json :=
  Json.obj [("question", Json.str "Explain machine learning"), ("answer", Json.str "a")]

/-- The record the C4 witness entry resolves to. -/
def c4wrec : Question :=
  ⟨"Explain machine learning", "a", "B", "T",
   "https://docs.python.org/3/explain-machine-learning"⟩

/-- Witness for the C4 theorem: with a reachable fallback, the resolved
reference passes the probe and is non-empty. -/
theorem c4_amended_witness :
    probe4 c4wrec.reference = true ∧ c4wrec.reference ≠ "" :=
  (c4_amended probe4 "T" "B" c4wentry c4wrec (by decide)).1
    "https://docs.python.org/3/explain-machine-learning" (by decide)

/-- An entry whose answer carries a `Source:` marker followed by text that
is not a valid URL (C5 counterexample input). -/
def c5entry : Json :=
  Json.obj [("question", Json.str "Q"), ("answer", Json.str "Body. Source: not a url")]

/-- Claim C5 counterexample: the marker is present and the structured
reference is empty, yet the answer is not split — the trailing text is not
a syntactically valid URL, so the marker stays in the answer text,
refuting "the marker is stripped whenever it is present". -/
theorem c5_counterexample :
    containsSubS sourceMarker "Body. Source: not a url" = true ∧
    processEntry (fun _ => false) "T" "B" c5entry =
      some ⟨"Q", "Body. Source: not a url", "B", "T", ""⟩ := by
  refine ⟨by decide, by decide⟩

/-- Claim C5 (amended): with an empty structured reference and the marker
present, the split happens only when the stripped text after the last
marker is a syntactically valid URL — then it becomes the reference and
the stripped text before the first marker becomes the answer; otherwise
answer and reference are both left unchanged, marker included. -/
theorem c5_amended (ans rf : String) (h : rf = "")
    (hm : containsSubS sourceMarker ans = true) :
    2 ≤ (splitOnPyS sourceMarker ans).length ∧
    (is_valid_url (pyStripS ((splitOnPyS sourceMarker ans).getLastD "")) = true →
      sourceSplit ans rf =
        (pyStripS ((splitOnPyS sourceMarker ans).headD ""),
         pyStripS ((splitOnPyS sourceMarker ans).getLastD ""))) ∧
    (is_valid_url (pyStripS ((splitOnPyS sourceMarker ans).getLastD "")) = false →
      sourceSplit ans rf = (ans, rf)) := by
  subst h
  have hlen : 2 ≤ (splitOnPyS sourceMarker ans).length := by
    unfold splitOnPyS
    rw [List.length_map]
    exact splitOnPy_length_ge_two hm
  have hcond : (("" == "") && containsSubS sourceMarker ans) = true := by
    rw [hm]
    rfl
  refine ⟨hlen, ?_, ?_⟩
  · intro hv
    unfold sourceSplit
    rw [if_pos hcond,
      if_pos (show (1 : Nat) < (splitOnPyS sourceMarker ans).length from by omega),
      if_pos hv]
  · intro hv
    unfold sourceSplit
    rw [if_pos hcond,
      if_pos (show (1 : Nat) < (splitOnPyS sourceMarker ans).length from by omega),
      if_neg (show ¬is_valid_url (pyStripS ((splitOnPyS sourceMarker ans).getLastD "")) = true
        from by rw [hv]; exact Bool.false_ne_true)]

/-- Witness for the C5 theorem at an answer whose trailing marker text is
a valid URL: the split produces the body and the reference. -/
theorem c5_amended_witness :
    sourceSplit "Body. Source: https://example.com/doc" "" =
      ("Body.", "https://example.com/doc") := by
  have h :=
    (c5_amended "Body. Source: https://example.com/doc" "" rfl (by decide)).2.1 (by decide)
  exact h.trans (by decide)

/-- Claim C6 counterexample: an unfenced answer consisting of a
code-shaped line is classified as a single prose span — no heuristic line
classification exists, so no code span is produced. -/
theorem c6_counterexample :
    classifyAnswer "def bfs(g):" = [⟨.prose, "def bfs(g):"⟩] ∧
    ¬∃ s ∈ classifyAnswer "def bfs(g):", s.kind = SpanKind.code := by
  refine ⟨by decide, by decide⟩

/-- Claim C6 (amended): when the answer contains no fence marker, the
entire answer is rendered as exactly one prose span, regardless of any
code-shaped or math-shaped lines it contains — there is no per-line
heuristic classification. -/
theorem c6_amended (ans : String) (h : containsSubS fence ans = false) :
    classifyAnswer ans = [⟨.prose, ans⟩] :=
  classifyAnswer_unfenced h

/-- Witness for the C6 theorem at a concrete unfenced code-shaped answer. -/
theorem c6_amended_witness :
    classifyAnswer "def bfs(g):" = [⟨.prose, "def bfs(g):"⟩] :=
  c6_amended "def bfs(g):" (by decide)

/-- Claim C7 counterexample: an answer consisting of two fence markers
around an empty segment (an even count, at least 2) produces a code span
that is empty after trimming — empty code spans are rendered, not
omitted. -/
theorem c7_counterexample :
    fenceCountS "``````" = 2 ∧
    classifyAnswer "``````" = [⟨.code, ""⟩] ∧
    ∃ s ∈ classifyAnswer "``````", pyStripS s.text = "" := by
  refine ⟨by decide, by decide, by decide⟩

/-- Claim C7 (amended): for an answer with an even number `2n ≥ 2` of
fence markers, the classification yields exactly `n` code spans — one per
fenced segment, rendered even when empty after trimming — and every prose
span is non-empty after trimming and contains no fence marker. -/
theorem c7_amended (ans : String) (n : Nat) (h : fenceCountS ans = 2 * n) (hn : 1 ≤ n) :
    (classifyAnswer ans).countP (fun s => s.kind == SpanKind.code) = n ∧
    ∀ s ∈ classifyAnswer ans, s.kind = SpanKind.prose →
      containsSubS fence s.text = false ∧ s.text ≠ "" := by
  have hcont : containsSubS fence ans = true := by
    apply containsSubS_of_fenceCount
    omega
  cases hp : splitOnPyS fence ans with
  | nil => exact absurd hp splitOnPyS_ne_nil
  | cons p0 rest =>
    have hclass : classifyAnswer ans =
        (if pyStripS p0 ≠ "" then [(⟨.prose, pyStripS p0⟩ : Span)] else []) ++
          fencedSpans rest := by
      rw [classifyAnswer, if_pos hcont, hp]
    have hrlen : rest.length = 2 * n := by
      have hlen1 : 1 ≤ (splitOnPyS fence ans).length := by
        rw [hp]
        simp
      unfold fenceCountS at h
      rw [hp] at h
      simp only [List.length_cons] at h
      omega
    constructor
    · rw [hclass, List.countP_append]
      have hpiece :
          (if pyStripS p0 ≠ "" then [(⟨.prose, pyStripS p0⟩ : Span)] else []).countP
            (fun s => s.kind == SpanKind.code) = 0 := by
        split
        · rw [List.countP_cons, List.countP_nil]
          rfl
        · rfl
      rw [hpiece, fencedSpans_code_count, hrlen]
      omega
    · intro s hs hk
      rw [hclass] at hs
      rcases List.mem_append.mp hs with hs0 | hs1
      · by_cases h0 : pyStripS p0 ≠ ""
        · rw [if_pos h0] at hs0
          simp only [List.mem_singleton] at hs0
          subst hs0
          exact ⟨splitOnPyS_strip_clean (by decide) p0 (by rw [hp]; simp), h0⟩
        · rw [if_neg h0] at hs0
          simp at hs0
      · rcases fencedSpans_prose rest s hs1 hk with ⟨p, hpm, hptxt, hpne⟩
        refine ⟨?_, hpne⟩
        rw [hptxt]
        exact splitOnPyS_strip_clean (by decide) p (by rw [hp]; simp [hpm])

/-- Witness for the C7 theorem: one fenced segment yields one code span. -/
theorem c7_amended_witness :
    (classifyAnswer "a```b```c").countP (fun s => s.kind == SpanKind.code) = 1 :=
  (c7_amended "a```b```c" 1 (by decide) (by decide)).1

/-- The C8 counterexample record: its answer contains fenced code. -/
def c8q : Question := ⟨"Q1", "a```b```c", "Beginner", "Graphs", ""⟩

/-- Claim C8 counterexample: a fenced answer never appears verbatim in
the content cells — the fence markers are removed and the segments are
trimmed — while the question text does appear. -/
theorem c8_counterexample :
    "a```b```c" ∉ (generate_pdf [c8q]).content.map Cell.text ∧
    "Q1" ∈ (generate_pdf [c8q]).content.map Cell.text := by
  refine ⟨by decide, by decide⟩

/-- Claim C8 (amended): the document has the distinguished cover followed
by the content flow; the cover shows the fixed branding lines and the
first record's topic (the given topic whenever records are non-empty, the
fixed default title when empty); every record's question appears verbatim
in the content cells, and its answer appears verbatim whenever it
contains no fence marker (fenced answers appear as trimmed segments
instead); the empty record sequence still yields the cover plus an empty
content flow rather than a failure. -/
theorem c8_amended (qs : List Question) :
    (generate_pdf qs).cover.map Cell.text =
      ["accredian", "credentials that matter", "Interview Questions", coverTopic qs] ∧
    (∀ q0 rest, qs = q0 :: rest → coverTopic qs = q0.topic) ∧
    coverTopic [] = "Interview Questions" ∧
    (∀ q ∈ qs, q.question ∈ (generate_pdf qs).content.map Cell.text) ∧
    (∀ q ∈ qs, containsSubS fence q.answer = false →
      q.answer ∈ (generate_pdf qs).content.map Cell.text) ∧
    (generate_pdf []).content = [] := by
  refine ⟨rfl, ?_, rfl, ?_, ?_, rfl⟩
  · rintro q0 rest rfl
    rfl
  · intro q hq
    exact List.mem_map.mpr ⟨_, question_cell_mem 1 hq, rfl⟩
  · intro q hq hf
    exact List.mem_map.mpr ⟨_, answer_cell_mem 1 hq hf, rfl⟩

/-- The C8 witness record: a plain, unfenced answer. -/
def c8wq : Question := ⟨"Qw", "plain answer", "B", "Topo", ""⟩

/-- Witness for the C8 theorem: the unfenced answer appears verbatim. -/
theorem c8_amended_witness :
    "plain answer" ∈ (generate_pdf [c8wq]).content.map Cell.text :=
  (c8_amended [c8wq]).2.2.2.2.1 c8wq (by decide) (by decide)

/-- Claim C9: rendering is deterministic — the document depends only on
the fields the rendering code reads (question, answer, reference, topic;
the difficulty is never consulted), so identical record sequences produce
identical documents, and the output file follows the fixed
`interview_questions.<ext>` convention. -/
theorem c9_confirmed (qs₁ qs₂ : List Question) (h : qs₁.map obsQ = qs₂.map obsQ) :
    generate_pdf qs₁ = generate_pdf qs₂ ∧
    pdf_output_path = "/tmp/" ++ "interview_questions" ++ "." ++ "pdf" := by
  refine ⟨?_, rfl⟩
  have hc : coverCells qs₁ = coverCells qs₂ := by
    unfold coverCells
    rw [coverTopic_congr h]
  rw [generate_pdf, generate_pdf, hc, contentCells_congr 1 h]

/-- Witness for the C9 theorem: two records differing only in difficulty
render to the same document. -/
theorem c9_confirmed_witness :
    generate_pdf [⟨"q", "a", "Beginner", "T", ""⟩] =
      generate_pdf [⟨"q", "a", "Expert", "T", ""⟩] :=
  (c9_confirmed [⟨"q", "a", "Beginner", "T", ""⟩] [⟨"q", "a", "Expert", "T", ""⟩]
    (by decide)).1

/-- Claim C10: with an odd number of fence markers, the segment after the
last marker lands at an odd split index and is therefore rendered as the
final code span (stripped), and every code-span cell is rendered in the
fixed-width Courier font with background fill. -/
theorem c10_confirmed (ans : String) (h : fenceCountS ans % 2 = 1) :
    (classifyAnswer ans).getLast? =
      some ⟨SpanKind.code, pyStripS ((splitOnPyS fence ans).getLastD "")⟩ ∧
    ∀ t : String, ∀ c ∈ spanCells ⟨SpanKind.code, t⟩,
      c.font = "Courier" ∧ c.fill = true := by
  constructor
  · have hcont : containsSubS fence ans = true := by
      apply containsSubS_of_fenceCount
      omega
    cases hp : splitOnPyS fence ans with
    | nil => exact absurd hp splitOnPyS_ne_nil
    | cons p0 rest =>
      have hclass : classifyAnswer ans =
          (if pyStripS p0 ≠ "" then [(⟨.prose, pyStripS p0⟩ : Span)] else []) ++
            fencedSpans rest := by
        rw [classifyAnswer, if_pos hcont, hp]
      have hrlen : rest.length % 2 = 1 := by
        have hlen1 : 1 ≤ (splitOnPyS fence ans).length := by
          rw [hp]
          simp
        unfold fenceCountS at h
        rw [hp] at h
        simp only [List.length_cons] at h
        omega
      have hrne : rest ≠ [] := by
        intro he
        rw [he] at hrlen
        simp at hrlen
      have hgl : (p0 :: rest).getLastD "" = rest.getLastD "" := by
        rw [List.getLastD_eq_getLast?, List.getLastD_eq_getLast?]
        rw [show p0 :: rest = [p0] ++ rest from rfl, List.getLast?_append]
        cases hq : rest.getLast? with
        | none => exact absurd (List.getLast?_eq_none_iff.mp hq) hrne
        | some w => simp
      rw [hclass, List.getLast?_append, fencedSpans_getLast_odd rest hrlen, hgl]
      rfl
  · intro t c hc
    unfold spanCells at hc
    rcases List.mem_map.mp hc with ⟨line, _, rfl⟩
    exact ⟨rfl, rfl⟩

/-- Witness for the C10 theorem: a single unclosed fence still renders
its trailing segment as a code span. -/
theorem c10_confirmed_witness :
    (classifyAnswer "a```b").getLast? =
      some ⟨SpanKind.code, pyStripS ((splitOnPyS fence "a```b").getLastD "")⟩ :=
  (c10_confirmed "a```b" (by decide)).1

end InterviewGen
